import Mathlib

/-!
Verification of `ironfish-rust/src/assets/asset.rs` (Iron Fish asset
identifier derivation and codec) against its specification.

Bytes are modelled as natural numbers (values `< 256` where it matters) and
byte buffers as `List Nat`.  The external cryptographic collaborators — the
personalized blake2s hash and the elliptic-curve membership check performed
by `AssetIdentifier::new` — are black boxes in the spec, so the development
is parameterized over them (`blake2s`, `validDigest`); every theorem is
universally quantified over these parameters.
-/

namespace Ironfish

/-- Length of the fixed-width asset name field (`NAME_LENGTH` in asset.rs). -/
def NAME_LENGTH : Nat := 32

/-- Length of the fixed-width asset metadata field (`METADATA_LENGTH`). -/
def METADATA_LENGTH : Nat := 96

/-- Modelled from the spec: the owner public identity is 32 bytes
(`PUBLIC_ADDRESS_SIZE` in keys, not under src/). -/
def PUBLIC_ADDRESS_SIZE : Nat := 32

/-- Total serialized length of an `Asset` (`ASSET_LENGTH` in asset.rs). -/
def ASSET_LENGTH : Nat := NAME_LENGTH + PUBLIC_ADDRESS_SIZE + METADATA_LENGTH + 1

/-- The error type of the crate, restricted to the variants reachable from
asset.rs.  `IoError` stands for the wrapped `io::Error` of a short read. -/
inductive IronfishError where
  | InvalidData
  | InvalidAssetIdentifier
  | RandomnessError
  | IoError
deriving DecidableEq, Repr

/-- Modelled from the spec: the owner public identity type (`PublicAddress`,
not under src/), abstracted per the spec's design notes to an opaque
fixed-width byte array with canonical encode/decode and equality. -/
structure PublicAddress where
  bytes : List Nat
deriving DecidableEq, Repr

/-- `PublicAddress::public_address`: the canonical 32-byte encoding. -/
def PublicAddress.public_address (p : PublicAddress) : List Nat := p.bytes

/-- An asset identifier wraps the validated 32-byte digest
(`AssetIdentifier` in asset_identifier.rs, not under src/). -/
structure AssetIdentifier where
  bytes : List Nat
deriving DecidableEq, Repr

section Model

/- The abstract external collaborators.  `blake2s p x` is the blake2s digest
of input `x` under personalization `p` with 32-byte output; `validDigest d`
is the curve-membership/subgroup check that `AssetIdentifier::new` performs
on a candidate digest `d`. -/
variable (ASSET_ID_PERSONALIZATION GH_FIRST_BLOCK : List Nat)
variable (blake2s : List Nat → List Nat → List Nat)
variable (validDigest : List Nat → Bool)

/-- Modelled from the spec: `AssetIdentifier::new` (asset_identifier.rs, not
under src/) succeeds exactly when the 32-byte digest decodes to a point of
the correct subgroup (abstracted by `validDigest`), wrapping the digest;
otherwise it fails with the invalid-identifier error. -/
def AssetIdentifier.new (d : List Nat) : Except IronfishError AssetIdentifier :=
  if validDigest d then .ok ⟨d⟩ else .error .InvalidAssetIdentifier

/-- Rust's `str::trim`: the string with leading and trailing whitespace
removed (an external std primitive, modelled directly on the character
list). -/
def rustTrim (s : String) : String :=
  ⟨((s.data.dropWhile Char.isWhitespace).reverse.dropWhile Char.isWhitespace).reverse⟩

/-- Modelled from the spec: the Canonical Field Encoder (`str_to_array` in
util.rs, not under src/): the UTF-8 bytes of the input, truncated to width
`W` and zero-padded on the right to exactly `W` bytes. -/
def str_to_array (s : String) (W : Nat) : List Nat :=
  let bs := s.data.flatMap (fun c => (String.utf8EncodeChar c).map UInt8.toNat)
  bs.take W ++ List.replicate (W - bs.length) 0

/-- The `Asset` struct of asset.rs. -/
structure Asset where
  name : List Nat
  metadata : List Nat
  owner : PublicAddress
  nonce : Nat
  id : AssetIdentifier
deriving DecidableEq, Repr

/-- The hash input assembled by `Asset::new_with_nonce`: the exact
concatenation `GH_FIRST_BLOCK || owner || name || metadata || nonce`. -/
def Asset.hashInput (owner : PublicAddress) (name metadata : List Nat)
    (nonce : Nat) : List Nat :=
  GH_FIRST_BLOCK ++ owner.public_address ++ name ++ metadata ++ [nonce]

/-- `Asset::new_with_nonce`: hash the asset info under the asset-id
personalization, then attempt to build a validated identifier from the
digest. -/
def Asset.new_with_nonce (owner : PublicAddress) (name metadata : List Nat)
    (nonce : Nat) : Except IronfishError Asset :=
  let asset_id_hash :=
    blake2s ASSET_ID_PERSONALIZATION (Asset.hashInput GH_FIRST_BLOCK owner name metadata nonce)
  match AssetIdentifier.new validDigest asset_id_hash with
  | .ok asset_id => .ok ⟨name, metadata, owner, nonce, asset_id⟩
  | .error e => .error e

/-- The nonce-search loop of `Asset::new`: try the current nonce; on failure
increment via `checked_add` (which fails exactly at 255, yielding
`RandomnessError`). -/
def Asset.newLoop (owner : PublicAddress) (name metadata : List Nat)
    (nonce : Nat) : Except IronfishError Asset :=
  match Asset.new_with_nonce ASSET_ID_PERSONALIZATION GH_FIRST_BLOCK blake2s validDigest
      owner name metadata nonce with
  | .ok asset => .ok asset
  | .error _ =>
    if nonce < 255 then
      Asset.newLoop owner name metadata (nonce + 1)
    else
      .error .RandomnessError
termination_by 255 - nonce

/-- The nonce-search loop instrumented with the number of hash-and-validate
attempts (`new_with_nonce` calls) it performs; its first component follows
`Asset.newLoop` step for step. -/
def Asset.newLoopI (owner : PublicAddress) (name metadata : List Nat)
    (nonce : Nat) : Except IronfishError Asset × Nat :=
  match Asset.new_with_nonce ASSET_ID_PERSONALIZATION GH_FIRST_BLOCK blake2s validDigest
      owner name metadata nonce with
  | .ok asset => (.ok asset, 1)
  | .error _ =>
    if nonce < 255 then
      let r := Asset.newLoopI owner name metadata (nonce + 1)
      (r.1, r.2 + 1)
    else
      (.error .RandomnessError, 1)
termination_by 255 - nonce

/-- `Asset::new`: trim and reject empty names, encode the fields, then
search nonces starting from 0. -/
def Asset.new (owner : PublicAddress) (name metadata : String) :
    Except IronfishError Asset :=
  let trimmed_name := rustTrim name
  if trimmed_name.isEmpty then
    .error .InvalidData
  else
    let name_bytes := str_to_array trimmed_name NAME_LENGTH
    let metadata_bytes := str_to_array metadata METADATA_LENGTH
    Asset.newLoop ASSET_ID_PERSONALIZATION GH_FIRST_BLOCK blake2s validDigest
      owner name_bytes metadata_bytes 0

/-- Reading `n` bytes from an in-memory stream; fails like `read_exact`
does when the input is too short. -/
def readBytes (n : Nat) (input : List Nat) :
    Except IronfishError (List Nat × List Nat) :=
  if n ≤ input.length then .ok (input.take n, input.drop n) else .error .IoError

/-- `Asset::read`: parse owner, name, metadata and nonce from the fixed
layout, then re-derive and re-validate the identifier via `new_with_nonce`. -/
def Asset.read (input : List Nat) : Except IronfishError Asset := do
  let (ownerBytes, r1) ← readBytes PUBLIC_ADDRESS_SIZE input
  let (name, r2) ← readBytes NAME_LENGTH r1
  let (metadata, r3) ← readBytes METADATA_LENGTH r2
  let (nonceBytes, _) ← readBytes 1 r3
  Asset.new_with_nonce ASSET_ID_PERSONALIZATION GH_FIRST_BLOCK blake2s validDigest
    ⟨ownerBytes⟩ name metadata (nonceBytes.headD 0)

/-- `Asset::write`: the owner's canonical encoding, the raw name bytes, the
raw metadata bytes, and the nonce byte, in that order. -/
def Asset.write (a : Asset) : List Nat :=
  a.owner.public_address ++ a.name ++ a.metadata ++ [a.nonce]

/-- Modelled from the spec: `AssetIdentifier::asset_generator`
(asset_identifier.rs, not under src/) is a fixed deterministic map applied
to the underlying digest; the map itself is abstracted as `agen`, points as
their byte encodings. -/
def AssetIdentifier.asset_generator (agen : List Nat → List Nat)
    (i : AssetIdentifier) : List Nat := agen i.bytes

/-- Modelled from the spec: `AssetIdentifier::value_commitment_generator`,
a second fixed deterministic map `vcgen` applied to the digest. -/
def AssetIdentifier.value_commitment_generator (vcgen : List Nat → List Nat)
    (i : AssetIdentifier) : List Nat := vcgen i.bytes

/-- `Asset::asset_generator`: proxied from the identifier. -/
def Asset.asset_generator (agen : List Nat → List Nat) (a : Asset) : List Nat :=
  a.id.asset_generator agen

/-- `Asset::value_commitment_generator`: proxied from the identifier. -/
def Asset.value_commitment_generator (vcgen : List Nat → List Nat) (a : Asset) :
    List Nat :=
  a.id.value_commitment_generator vcgen

end Model

/-! Concrete instantiations of the abstract parameters, used to evaluate the
development on explicit inputs. -/

/-- A concrete stand-in digest function: constant 32-byte output. -/
def hash0 : List Nat → List Nat → List Nat := fun _ _ => List.replicate 32 0

/-- A validator accepting every digest. -/
def vAll : List Nat → Bool := fun _ => true

/-- A validator rejecting every digest. -/
def vNone : List Nat → Bool := fun _ => false

/-- A concrete 32-byte public address. -/
def pa7 : PublicAddress := ⟨List.replicate 32 7⟩

/-- A concrete 32-byte name field. -/
def nm1 : List Nat := List.replicate 32 1

/-- A concrete 96-byte metadata field. -/
def md2 : List Nat := List.replicate 96 2

/-- A concrete generator-derivation map standing in for the two point maps. -/
def gmap0 : List Nat → List Nat := fun d => 0 :: d

section Theorems

variable (P G : List Nat) (H : List Nat → List Nat → List Nat) (V : List Nat → Bool)

/-- Characterization of `new_with_nonce`: it is the digest-then-validate
pipeline, succeeding iff the validator accepts the digest. -/
theorem Asset.new_with_nonce_eq (o : PublicAddress) (n m : List Nat) (k : Nat) :
    Asset.new_with_nonce P G H V o n m k =
      if V (H P (Asset.hashInput G o n m k)) then
        .ok ⟨n, m, o, k, ⟨H P (Asset.hashInput G o n m k)⟩⟩
      else .error .InvalidAssetIdentifier := by
  unfold Asset.new_with_nonce AssetIdentifier.new
  split <;> simp_all

/-- One-step unfolding of the nonce-search loop. -/
theorem Asset.newLoop_unfold (o : PublicAddress) (n m : List Nat) (k : Nat) :
    Asset.newLoop P G H V o n m k =
      match Asset.new_with_nonce P G H V o n m k with
      | .ok a => .ok a
      | .error _ =>
        if k < 255 then Asset.newLoop P G H V o n m (k + 1)
        else .error .RandomnessError := by
  rw [Asset.newLoop]

/-- One-step unfolding of the instrumented nonce-search loop. -/
theorem Asset.newLoopI_unfold (o : PublicAddress) (n m : List Nat) (k : Nat) :
    Asset.newLoopI P G H V o n m k =
      match Asset.new_with_nonce P G H V o n m k with
      | .ok a => (.ok a, 1)
      | .error _ =>
        if k < 255 then
          ((Asset.newLoopI P G H V o n m (k + 1)).1,
            (Asset.newLoopI P G H V o n m (k + 1)).2 + 1)
        else (.error .RandomnessError, 1) := by
  rw [Asset.newLoopI]

/-- `new_with_nonce` succeeds exactly when the candidate digest validates. -/
theorem Asset.new_with_nonce_isOk (o : PublicAddress) (n m : List Nat) (k : Nat) :
    (Asset.new_with_nonce P G H V o n m k).isOk =
      V (H P (Asset.hashInput G o n m k)) := by
  rw [Asset.new_with_nonce_eq]
  split <;> simp_all [Except.isOk, Except.toBool]

/-- If nonce `j` is the least success at or above the loop's current
position, the loop returns exactly the result of `new_with_nonce` at `j`. -/
theorem Asset.newLoop_reaches (o : PublicAddress) (n m : List Nat) :
    ∀ t k j, j - k ≤ t → k ≤ j → j ≤ 255 →
      (Asset.new_with_nonce P G H V o n m j).isOk = true →
      (∀ i, k ≤ i → i < j → (Asset.new_with_nonce P G H V o n m i).isOk = false) →
      Asset.newLoop P G H V o n m k = Asset.new_with_nonce P G H V o n m j := by
  intro t
  induction t with
  | zero =>
    intro k j hfuel hkj hj hok _
    have hkj2 : k = j := by omega
    subst hkj2
    rw [Asset.newLoop_unfold]
    cases hx : Asset.new_with_nonce P G H V o n m k with
    | ok a => simp
    | error e => rw [hx] at hok; simp [Except.isOk, Except.toBool] at hok
  | succ t ih =>
    intro k j hfuel hkj hj hok hmin
    by_cases hkj2 : k = j
    · subst hkj2
      rw [Asset.newLoop_unfold]
      cases hx : Asset.new_with_nonce P G H V o n m k with
      | ok a => simp
      | error e => rw [hx] at hok; simp [Except.isOk, Except.toBool] at hok
    · have hklt : k < j := by omega
      rw [Asset.newLoop_unfold]
      cases hx : Asset.new_with_nonce P G H V o n m k with
      | ok a =>
        have := hmin k (Nat.le_refl k) hklt
        rw [hx] at this
        simp [Except.isOk, Except.toBool] at this
      | error e =>
        have hk255 : k < 255 := by omega
        simp only [hk255, if_true]
        exact ih (k + 1) j (by omega) (by omega) hj hok
          (fun i hi1 hi2 => hmin i (by omega) hi2)

/-- If every nonce from the loop's position through 255 fails validation,
the loop exhausts and reports `RandomnessError`. -/
theorem Asset.newLoop_exhausts (o : PublicAddress) (n m : List Nat) :
    ∀ t k, 255 - k ≤ t → k ≤ 255 →
      (∀ i, k ≤ i → i ≤ 255 → (Asset.new_with_nonce P G H V o n m i).isOk = false) →
      Asset.newLoop P G H V o n m k = .error .RandomnessError := by
  intro t
  induction t with
  | zero =>
    intro k hfuel hk hall
    have hk2 : k = 255 := by omega
    subst hk2
    rw [Asset.newLoop_unfold]
    cases hx : Asset.new_with_nonce P G H V o n m 255 with
    | ok a =>
      have := hall 255 (Nat.le_refl _) (Nat.le_refl _)
      rw [hx] at this; simp [Except.isOk, Except.toBool] at this
    | error e => simp
  | succ t ih =>
    intro k hfuel hk hall
    rw [Asset.newLoop_unfold]
    cases hx : Asset.new_with_nonce P G H V o n m k with
    | ok a =>
      have := hall k (Nat.le_refl _) hk
      rw [hx] at this; simp [Except.isOk, Except.toBool] at this
    | error e =>
      by_cases hk255 : k < 255
      · simp only [hk255, if_true]
        exact ih (k + 1) (by omega) (by omega)
          (fun i hi1 hi2 => hall i (by omega) hi2)
      · simp [hk255]

/-- The loop only ever produces a constructed asset or `RandomnessError`. -/
theorem Asset.newLoop_total (o : PublicAddress) (n m : List Nat) :
    ∀ t k, 255 - k ≤ t →
      (∃ a, Asset.newLoop P G H V o n m k = .ok a) ∨
        Asset.newLoop P G H V o n m k = .error .RandomnessError := by
  intro t
  induction t with
  | zero =>
    intro k hfuel
    rw [Asset.newLoop_unfold]
    cases hx : Asset.new_with_nonce P G H V o n m k with
    | ok a => exact Or.inl ⟨a, rfl⟩
    | error e =>
      have : ¬ k < 255 := by omega
      simp [this]
  | succ t ih =>
    intro k hfuel
    rw [Asset.newLoop_unfold]
    cases hx : Asset.new_with_nonce P G H V o n m k with
    | ok a => exact Or.inl ⟨a, rfl⟩
    | error e =>
      by_cases hk255 : k < 255
      · simp only [hk255, if_true]
        exact ih (k + 1) (by omega)
      · simp [hk255]

/-- Taking exactly the length of the left part of an append yields it. -/
theorem takeExact (l1 l2 : List Nat) (c : Nat) (h : l1.length = c) :
    (l1 ++ l2).take c = l1 := by
  subst h; simp

/-- Dropping exactly the length of the left part of an append yields the
right part. -/
theorem dropExact (l1 l2 : List Nat) (c : Nat) (h : l1.length = c) :
    (l1 ++ l2).drop c = l2 := by
  subst h; simp

/-- Full characterization of a successful `new_with_nonce` call. -/
theorem Asset.new_with_nonce_ok_iff (o : PublicAddress) (n m : List Nat)
    (k : Nat) (a : Asset) :
    Asset.new_with_nonce P G H V o n m k = .ok a ↔
      (V (H P (Asset.hashInput G o n m k)) = true ∧
        a = ⟨n, m, o, k, ⟨H P (Asset.hashInput G o n m k)⟩⟩) := by
  rw [Asset.new_with_nonce_eq]
  split
  · rename_i hv
    constructor
    · intro h
      injection h with h2
      exact ⟨hv, h2.symm⟩
    · intro h
      rw [h.2]
  · rename_i hv
    constructor
    · intro h
      cases h
    · intro h
      exact absurd h.1 hv

/-- The canonical field encoder always produces exactly `W` bytes. -/
theorem str_to_array_length (s : String) (W : Nat) :
    (str_to_array s W).length = W := by
  simp [str_to_array]
  omega

/-- Parsing a buffer assembled from well-sized components re-derives the
asset from exactly those components. -/
theorem Asset.read_of_components (o : PublicAddress) (n m : List Nat) (k : Nat)
    (ho : o.bytes.length = PUBLIC_ADDRESS_SIZE) (hn : n.length = NAME_LENGTH)
    (hm : m.length = METADATA_LENGTH) :
    Asset.read P G H V (o.bytes ++ (n ++ (m ++ [k]))) =
      Asset.new_with_nonce P G H V o n m k := by
  have h1 : readBytes PUBLIC_ADDRESS_SIZE (o.bytes ++ (n ++ (m ++ [k]))) =
      .ok (o.bytes, n ++ (m ++ [k])) := by
    rw [readBytes, if_pos (by simp only [List.length_append, ho]; omega),
      takeExact _ _ _ ho, dropExact _ _ _ ho]
  have h2 : readBytes NAME_LENGTH (n ++ (m ++ [k])) = .ok (n, m ++ [k]) := by
    rw [readBytes, if_pos (by simp only [List.length_append, hn]; omega),
      takeExact _ _ _ hn, dropExact _ _ _ hn]
  have h3 : readBytes METADATA_LENGTH (m ++ [k]) = .ok (m, [k]) := by
    rw [readBytes, if_pos (by simp only [List.length_append, hm]; omega),
      takeExact _ _ _ hm, dropExact _ _ _ hm]
  have h4 : readBytes 1 ([k] : List Nat) = .ok ([k], []) := by
    rw [readBytes, if_pos (by simp)]
    rfl
  rw [Asset.read, h1]
  simp only [Except.bind, bind]
  rw [h2]
  simp only [Except.bind, bind]
  rw [h3]
  simp only [Except.bind, bind]
  rw [h4]
  simp only [Except.bind, bind, List.headD]

/-- With a non-empty trimmed name, `Asset::new` is the nonce search from 0
over the encoded fields. -/
theorem Asset.new_eq_newLoop (o : PublicAddress) (s t : String)
    (h : (rustTrim s).isEmpty = false) :
    Asset.new P G H V o s t =
      Asset.newLoop P G H V o (str_to_array (rustTrim s) NAME_LENGTH)
        (str_to_array t METADATA_LENGTH) 0 := by
  simp [Asset.new, h]

/-- A successful loop result was produced by `new_with_nonce` at some
nonce. -/
theorem Asset.newLoop_ok_src (o : PublicAddress) (n m : List Nat) :
    ∀ t k a, 255 - k ≤ t →
      Asset.newLoop P G H V o n m k = .ok a →
      ∃ j, Asset.new_with_nonce P G H V o n m j = .ok a := by
  intro t
  induction t with
  | zero =>
    intro k a hfuel ha
    rw [Asset.newLoop_unfold] at ha
    cases hx : Asset.new_with_nonce P G H V o n m k with
    | ok b =>
      rw [hx] at ha
      simp only [] at ha
      injection ha with h2
      exact ⟨k, by rw [hx, h2]⟩
    | error e =>
      rw [hx] at ha
      simp only [] at ha
      have hk : ¬ k < 255 := by omega
      rw [if_neg hk] at ha
      cases ha
  | succ t ih =>
    intro k a hfuel ha
    rw [Asset.newLoop_unfold] at ha
    cases hx : Asset.new_with_nonce P G H V o n m k with
    | ok b =>
      rw [hx] at ha
      simp only [] at ha
      injection ha with h2
      exact ⟨k, by rw [hx, h2]⟩
    | error e =>
      rw [hx] at ha
      simp only [] at ha
      by_cases hk : k < 255
      · rw [if_pos hk] at ha
        exact ih (k + 1) a (by omega) ha
      · rw [if_neg hk] at ha
        cases ha

/-- Full behavioural specification of the search started at nonce 0: any
returned asset carries the least valid nonce, and exhaustion is equivalent
to all 256 nonces failing. -/
theorem Asset.newLoop_zero_spec (o : PublicAddress) (n m : List Nat) :
    (∀ a, Asset.newLoop P G H V o n m 0 = .ok a →
        a.nonce ≤ 255 ∧ Asset.new_with_nonce P G H V o n m a.nonce = .ok a ∧
        ∀ j < a.nonce, (Asset.new_with_nonce P G H V o n m j).isOk = false)
    ∧ (Asset.newLoop P G H V o n m 0 = .error .RandomnessError ↔
        ∀ j ≤ 255, (Asset.new_with_nonce P G H V o n m j).isOk = false) := by
  classical
  by_cases hex : ∃ j, j ≤ 255 ∧ (Asset.new_with_nonce P G H V o n m j).isOk = true
  · have hj0 := Nat.find_spec hex
    have hminP : ∀ i, i < Nat.find hex →
        (Asset.new_with_nonce P G H V o n m i).isOk = false := by
      intro i hi
      have hni := Nat.find_min hex hi
      have hle : i ≤ 255 := by omega
      cases hx : (Asset.new_with_nonce P G H V o n m i).isOk
      · rfl
      · exact absurd ⟨hle, hx⟩ hni
    have hreach := Asset.newLoop_reaches P G H V o n m (Nat.find hex) 0 (Nat.find hex)
      (by omega) (Nat.zero_le _) hj0.1 hj0.2 (fun i _ hi => hminP i hi)
    constructor
    · intro a ha
      rw [hreach] at ha
      obtain ⟨hv, haeq⟩ := (Asset.new_with_nonce_ok_iff P G H V o n m (Nat.find hex) a).mp ha
      have hnonce : a.nonce = Nat.find hex := by rw [haeq]
      constructor
      · have := hj0.1
        omega
      constructor
      · rw [hnonce]
        exact ha
      · intro j hj
        rw [hnonce] at hj
        exact hminP j hj
    · constructor
      · intro herr
        exfalso
        have h2 := hj0.2
        rw [← hreach, herr] at h2
        simp [Except.isOk, Except.toBool] at h2
      · intro hall
        exfalso
        have h2 := hj0.2
        rw [hall _ hj0.1] at h2
        simp at h2
  · have hall : ∀ j, j ≤ 255 → (Asset.new_with_nonce P G H V o n m j).isOk = false := by
      intro j hj
      cases hx : (Asset.new_with_nonce P G H V o n m j).isOk
      · rfl
      · exact absurd ⟨j, hj, hx⟩ hex
    have hexh := Asset.newLoop_exhausts P G H V o n m 256 0 (by omega) (by omega)
      (fun i _ hi => hall i hi)
    constructor
    · intro a ha
      rw [hexh] at ha
      cases ha
    · exact ⟨fun _ => hall, fun _ => hexh⟩

/-- The instrumented loop computes the same result as the loop. -/
theorem Asset.newLoopI_fst (o : PublicAddress) (n m : List Nat) :
    ∀ t k, 255 - k ≤ t →
      (Asset.newLoopI P G H V o n m k).1 = Asset.newLoop P G H V o n m k := by
  intro t
  induction t with
  | zero =>
    intro k hfuel
    rw [Asset.newLoopI_unfold, Asset.newLoop_unfold]
    cases hx : Asset.new_with_nonce P G H V o n m k with
    | ok b => rfl
    | error e =>
      have hk : ¬ k < 255 := by omega
      simp [hk]
  | succ t ih =>
    intro k hfuel
    rw [Asset.newLoopI_unfold, Asset.newLoop_unfold]
    cases hx : Asset.new_with_nonce P G H V o n m k with
    | ok b => rfl
    | error e =>
      by_cases hk : k < 255
      · simp only [hk, if_true]
        exact ih (k + 1) (by omega)
      · simp [hk]

/-- The instrumented loop makes at most `256 - start` attempts. -/
theorem Asset.newLoopI_count (o : PublicAddress) (n m : List Nat) :
    ∀ t k, 255 - k ≤ t → k ≤ 255 →
      (Asset.newLoopI P G H V o n m k).2 ≤ 256 - k := by
  intro t
  induction t with
  | zero =>
    intro k hfuel hk
    rw [Asset.newLoopI_unfold]
    cases hx : Asset.new_with_nonce P G H V o n m k with
    | ok b =>
      simp only []
      omega
    | error e =>
      have hk2 : ¬ k < 255 := by omega
      simp only [hk2, if_false]
      omega
  | succ t ih =>
    intro k hfuel hk
    rw [Asset.newLoopI_unfold]
    cases hx : Asset.new_with_nonce P G H V o n m k with
    | ok b =>
      simp only []
      omega
    | error e =>
      by_cases hk2 : k < 255
      · simp only [hk2, if_true]
        have := ih (k + 1) (by omega) (by omega)
        omega
      · simp only [hk2, if_false]
        omega

/-- C1: with a non-empty trimmed name, `Asset::new` either returns an asset
whose nonce is the least value in `[0, 255]` passing validation (every
smaller nonce fails), or returns `RandomnessError`; and the exhaustion
error occurs exactly when no nonce in `[0, 255]` validates. -/
theorem asset_new_minimal_nonce (o : PublicAddress) (name metadata : String)
    (hne : (rustTrim name).isEmpty = false) :
    ((∃ a, Asset.new P G H V o name metadata = .ok a) ∨
      Asset.new P G H V o name metadata = .error .RandomnessError)
    ∧ (∀ a, Asset.new P G H V o name metadata = .ok a →
        a.nonce ≤ 255 ∧
        Asset.new_with_nonce P G H V o (str_to_array (rustTrim name) NAME_LENGTH)
          (str_to_array metadata METADATA_LENGTH) a.nonce = .ok a ∧
        ∀ j < a.nonce,
          (Asset.new_with_nonce P G H V o (str_to_array (rustTrim name) NAME_LENGTH)
            (str_to_array metadata METADATA_LENGTH) j).isOk = false)
    ∧ (Asset.new P G H V o name metadata = .error .RandomnessError ↔
        ∀ j ≤ 255,
          (Asset.new_with_nonce P G H V o (str_to_array (rustTrim name) NAME_LENGTH)
            (str_to_array metadata METADATA_LENGTH) j).isOk = false) := by
  have hnew := Asset.new_eq_newLoop P G H V o name metadata hne
  have hspec := Asset.newLoop_zero_spec P G H V o
    (str_to_array (rustTrim name) NAME_LENGTH) (str_to_array metadata METADATA_LENGTH)
  refine ⟨?_, ?_, ?_⟩
  · rw [hnew]
    exact Asset.newLoop_total P G H V o _ _ 256 0 (by omega)
  · intro a ha
    rw [hnew] at ha
    exact hspec.1 a ha
  · rw [hnew]
    exact hspec.2

/-- C1 witness: a concrete search that terminates in one of the two allowed
outcomes. -/
theorem asset_new_minimal_nonce_witness :
    (∃ a, Asset.new [] [] hash0 vAll pa7 "foo" "m" = .ok a) ∨
      Asset.new [] [] hash0 vAll pa7 "foo" "m" = .error .RandomnessError :=
  (asset_new_minimal_nonce [] [] hash0 vAll pa7 "foo" "m" (by decide)).1

/-- C3: `Asset::new` fails with `InvalidData` exactly on names whose trim is
empty — for every hash function and validator, so no digest is consulted —
and a name with non-empty trim never produces `InvalidData`. -/
theorem asset_new_rejects_empty_name (o : PublicAddress) (name metadata : String) :
    ((rustTrim name).isEmpty = true →
      Asset.new P G H V o name metadata = .error .InvalidData)
    ∧ ((rustTrim name).isEmpty = false →
      Asset.new P G H V o name metadata ≠ .error .InvalidData) := by
  constructor
  · intro h
    simp [Asset.new, h]
  · intro h hcon
    rw [Asset.new] at hcon
    simp only [h, Bool.false_eq_true, if_false] at hcon
    rcases Asset.newLoop_total P G H V o
        (str_to_array (rustTrim name) NAME_LENGTH)
        (str_to_array metadata METADATA_LENGTH) 256 0 (by omega) with ⟨a, ha⟩ | ha
    · rw [ha] at hcon
      cases hcon
    · rw [ha] at hcon
      cases hcon

/-- C3 witness: the concrete cases of the spec — `""` and `"   "` are
rejected with `InvalidData`, `"foo"` is not. -/
theorem asset_new_rejects_empty_name_witness :
    Asset.new [] [] hash0 vAll pa7 "" "" = .error .InvalidData
    ∧ Asset.new [] [] hash0 vAll pa7 "   " "" = .error .InvalidData
    ∧ Asset.new [] [] hash0 vAll pa7 "foo" "" ≠ .error .InvalidData :=
  ⟨(asset_new_rejects_empty_name [] [] hash0 vAll pa7 "" "").1 (by decide),
    (asset_new_rejects_empty_name [] [] hash0 vAll pa7 "   " "").1 (by decide),
    (asset_new_rejects_empty_name [] [] hash0 vAll pa7 "foo" "").2 (by decide)⟩

/-- C4: `new_with_nonce` hashes, under the asset-id personalization, exactly
the concatenation `GH_FIRST_BLOCK || owner || name || metadata || nonce`,
and the digest step itself never fails: the only failure is the validator
rejecting the digest. -/
theorem new_with_nonce_digest_spec (o : PublicAddress) (n m : List Nat) (k : Nat) :
    Asset.new_with_nonce P G H V o n m k =
      if V (H P (G ++ o.public_address ++ n ++ m ++ [k])) then
        .ok ⟨n, m, o, k, ⟨H P (G ++ o.public_address ++ n ++ m ++ [k])⟩⟩
      else
        .error .InvalidAssetIdentifier := by
  rw [Asset.new_with_nonce_eq]
  rfl

/-- C5: `Asset::write` emits exactly owner encoding, raw name, raw metadata
and the nonce byte in that order; the output ignores the stored identifier;
and the total length is the fixed `ASSET_LENGTH = PUBLIC_ADDRESS_SIZE + 32 +
96 + 1` with no framing. -/
theorem asset_write_layout (a : Asset) :
    Asset.write a = a.owner.public_address ++ a.name ++ a.metadata ++ [a.nonce]
    ∧ (∀ i : AssetIdentifier, Asset.write { a with id := i } = Asset.write a)
    ∧ ASSET_LENGTH = PUBLIC_ADDRESS_SIZE + 32 + 96 + 1
    ∧ (a.owner.bytes.length = PUBLIC_ADDRESS_SIZE → a.name.length = NAME_LENGTH →
        a.metadata.length = METADATA_LENGTH →
        (Asset.write a).length = ASSET_LENGTH) := by
  refine ⟨rfl, fun i => rfl, rfl, fun h1 h2 h3 => ?_⟩
  simp [Asset.write, PublicAddress.public_address, h1, h2, h3,
    ASSET_LENGTH, NAME_LENGTH, METADATA_LENGTH, PUBLIC_ADDRESS_SIZE]

/-- C5 witness: a concrete asset serializes to exactly `ASSET_LENGTH`
bytes. -/
theorem asset_write_layout_witness :
    (Asset.write ⟨nm1, md2, pa7, 3, ⟨List.replicate 32 0⟩⟩).length = ASSET_LENGTH :=
  (asset_write_layout ⟨nm1, md2, pa7, 3, ⟨List.replicate 32 0⟩⟩).2.2.2
    (by decide) (by decide) (by decide)

/-- C7: `new_with_nonce` is deterministic — two successful calls on
identical inputs yield the same asset, with identical identifier digests and
identical generator points under any generator-derivation maps. -/
theorem new_with_nonce_deterministic (agen vcgen : List Nat → List Nat)
    (o : PublicAddress) (n m : List Nat) (k : Nat) (a1 a2 : Asset)
    (h1 : Asset.new_with_nonce P G H V o n m k = .ok a1)
    (h2 : Asset.new_with_nonce P G H V o n m k = .ok a2) :
    a1 = a2 ∧ a1.id.bytes = a2.id.bytes
    ∧ a1.asset_generator agen = a2.asset_generator agen
    ∧ a1.value_commitment_generator vcgen = a2.value_commitment_generator vcgen := by
  rw [h1] at h2
  injection h2 with h
  subst h
  exact ⟨rfl, rfl, rfl, rfl⟩

/-- C7 witness: the determinism theorem applied at a fully concrete call. -/
theorem new_with_nonce_deterministic_witness :
    (⟨nm1, md2, pa7, 3, ⟨List.replicate 32 0⟩⟩ : Asset) =
        ⟨nm1, md2, pa7, 3, ⟨List.replicate 32 0⟩⟩
    ∧ (⟨List.replicate 32 0⟩ : AssetIdentifier).bytes =
        (⟨List.replicate 32 0⟩ : AssetIdentifier).bytes
    ∧ Asset.asset_generator gmap0 ⟨nm1, md2, pa7, 3, ⟨List.replicate 32 0⟩⟩ =
        Asset.asset_generator gmap0 ⟨nm1, md2, pa7, 3, ⟨List.replicate 32 0⟩⟩
    ∧ Asset.value_commitment_generator gmap0 ⟨nm1, md2, pa7, 3, ⟨List.replicate 32 0⟩⟩ =
        Asset.value_commitment_generator gmap0 ⟨nm1, md2, pa7, 3, ⟨List.replicate 32 0⟩⟩ :=
  new_with_nonce_deterministic [] [] hash0 vAll gmap0 gmap0 pa7 nm1 md2 3 _ _
    rfl rfl

/-- C9: `Asset::new` depends on the name only through its trim — two names
with the same (non-empty) trim give the same result, hence the same stored
name bytes, nonce, and identifier. -/
theorem asset_new_trim_normalized (o : PublicAddress) (n1 n2 metadata : String)
    (heq : rustTrim n1 = rustTrim n2) (hne : (rustTrim n1).isEmpty = false) :
    Asset.new P G H V o n1 metadata = Asset.new P G H V o n2 metadata
    ∧ ∀ a1 a2, Asset.new P G H V o n1 metadata = .ok a1 →
        Asset.new P G H V o n2 metadata = .ok a2 →
        a1.name = a2.name ∧ a1.nonce = a2.nonce ∧ a1.id = a2.id := by
  have hmain : Asset.new P G H V o n1 metadata = Asset.new P G H V o n2 metadata := by
    unfold Asset.new
    rw [heq]
  refine ⟨hmain, fun a1 a2 ha1 ha2 => ?_⟩
  rw [hmain, ha2] at ha1
  injection ha1 with h
  subst h
  exact ⟨rfl, rfl, rfl⟩

/-- C9 witness: `" foo "` and `"foo"` produce the same asset. -/
theorem asset_new_trim_normalized_witness :
    Asset.new [] [] hash0 vAll pa7 " foo " "m" =
      Asset.new [] [] hash0 vAll pa7 "foo" "m" :=
  (asset_new_trim_normalized [] [] hash0 vAll pa7 " foo " "foo" "m"
    (by decide) (by decide)).1

/-- C8: the nonce search always terminates — its result is that of the
step-counting loop, which performs at most 256 hash-and-validate attempts
(one `new_with_nonce` call per iteration) before returning either a
constructed asset or the exhaustion error. -/
theorem asset_new_search_bounded (o : PublicAddress) (nb mb : List Nat)
    (s t : String) :
    (Asset.newLoopI P G H V o nb mb 0).1 = Asset.newLoop P G H V o nb mb 0
    ∧ (Asset.newLoopI P G H V o nb mb 0).2 ≤ 256
    ∧ ((rustTrim s).isEmpty = false →
        Asset.new P G H V o s t =
          (Asset.newLoopI P G H V o (str_to_array (rustTrim s) NAME_LENGTH)
            (str_to_array t METADATA_LENGTH) 0).1)
    ∧ ((∃ a, Asset.newLoop P G H V o nb mb 0 = .ok a) ∨
        Asset.newLoop P G H V o nb mb 0 = .error .RandomnessError) := by
  refine ⟨Asset.newLoopI_fst P G H V o nb mb 256 0 (by omega), ?_, ?_, ?_⟩
  · have := Asset.newLoopI_count P G H V o nb mb 256 0 (by omega) (by omega)
    omega
  · intro h
    rw [Asset.new_eq_newLoop P G H V o s t h,
      Asset.newLoopI_fst P G H V o _ _ 256 0 (by omega)]
  · exact Asset.newLoop_total P G H V o nb mb 256 0 (by omega)

/-- C8 witness: a concrete search (with a validator that always rejects, so
the loop runs the full range) equals its instrumented version's result. -/
theorem asset_new_search_bounded_witness :
    Asset.new [] [] hash0 vNone pa7 "foo" "m" =
      (Asset.newLoopI [] [] hash0 vNone pa7
        (str_to_array (rustTrim "foo") NAME_LENGTH)
        (str_to_array "m" METADATA_LENGTH) 0).1 :=
  (asset_new_search_bounded [] [] hash0 vNone pa7 nm1 md2 "foo" "m").2.2.1 (by decide)

/-- C2: serializing any successfully constructed asset and parsing the bytes
back succeeds and reproduces the asset exactly — same owner, name,
metadata, nonce and identifier — whether it was built by `new_with_nonce`
or by `Asset::new`. -/
theorem asset_write_read_roundtrip (o : PublicAddress)
    (ho : o.bytes.length = PUBLIC_ADDRESS_SIZE) :
    (∀ (n m : List Nat) (k : Nat) (a : Asset),
        n.length = NAME_LENGTH → m.length = METADATA_LENGTH →
        Asset.new_with_nonce P G H V o n m k = .ok a →
        Asset.read P G H V (Asset.write a) = .ok a)
    ∧ (∀ (s t : String) (a : Asset),
        Asset.new P G H V o s t = .ok a →
        Asset.read P G H V (Asset.write a) = .ok a) := by
  have core : ∀ (n m : List Nat) (k : Nat) (a : Asset),
      n.length = NAME_LENGTH → m.length = METADATA_LENGTH →
      Asset.new_with_nonce P G H V o n m k = .ok a →
      Asset.read P G H V (Asset.write a) = .ok a := by
    intro n m k a hn hm ha
    obtain ⟨hv, haeq⟩ := (Asset.new_with_nonce_ok_iff P G H V o n m k a).mp ha
    subst haeq
    have hw : Asset.write
        (⟨n, m, o, k, ⟨H P (Asset.hashInput G o n m k)⟩⟩ : Asset) =
        o.bytes ++ (n ++ (m ++ [k])) := by
      simp [Asset.write, PublicAddress.public_address, List.append_assoc]
    rw [hw, Asset.read_of_components P G H V o n m k ho hn hm]
    exact ha
  refine ⟨core, ?_⟩
  intro s t a ha
  by_cases hemp : (rustTrim s).isEmpty
  · rw [Asset.new] at ha
    simp only [hemp, if_true] at ha
    cases ha
  · rw [Asset.new_eq_newLoop P G H V o s t (by simp [hemp])] at ha
    obtain ⟨j, hj⟩ := Asset.newLoop_ok_src P G H V o
      (str_to_array (rustTrim s) NAME_LENGTH) (str_to_array t METADATA_LENGTH)
      256 0 a (by omega) ha
    exact core _ _ j a (str_to_array_length _ _) (str_to_array_length _ _) hj

set_option maxRecDepth 20000 in
/-- C2 witness: a concrete asset round-trips through write then read. -/
theorem asset_write_read_roundtrip_witness :
    Asset.read [] [] hash0 vAll
        (Asset.write ⟨nm1, md2, pa7, 3, ⟨List.replicate 32 0⟩⟩) =
      .ok ⟨nm1, md2, pa7, 3, ⟨List.replicate 32 0⟩⟩ :=
  (asset_write_read_roundtrip [] [] hash0 vAll pa7 (by decide)).1 nm1 md2 3 _
    (by decide) (by decide) rfl

/-- C6: `Asset::read` fails (with the short-read error) on any truncated
input, and any asset it returns carries an identifier freshly re-derived —
hashed from the decoded owner, name, metadata and nonce — and re-validated;
no identifier is taken from the wire. -/
theorem asset_read_short_or_validated (input : List Nat) :
    (input.length < ASSET_LENGTH → Asset.read P G H V input = .error .IoError)
    ∧ (∀ a, Asset.read P G H V input = .ok a →
        Asset.new_with_nonce P G H V a.owner a.name a.metadata a.nonce = .ok a
        ∧ a.id.bytes =
            H P (G ++ a.owner.public_address ++ a.name ++ a.metadata ++ [a.nonce])
        ∧ V a.id.bytes = true) := by
  constructor
  · intro hlen
    rw [Asset.read]
    by_cases h1 : PUBLIC_ADDRESS_SIZE ≤ input.length
    · rw [readBytes, if_pos h1]
      simp only [bind, Except.bind]
      by_cases h2 : NAME_LENGTH ≤ (input.drop PUBLIC_ADDRESS_SIZE).length
      · rw [readBytes, if_pos h2]
        simp only [bind, Except.bind]
        by_cases h3 : METADATA_LENGTH ≤
            ((input.drop PUBLIC_ADDRESS_SIZE).drop NAME_LENGTH).length
        · rw [readBytes, if_pos h3]
          simp only [bind, Except.bind]
          have h4 : ¬ 1 ≤
              (((input.drop PUBLIC_ADDRESS_SIZE).drop NAME_LENGTH).drop
                METADATA_LENGTH).length := by
            simp only [List.length_drop] at *
            simp only [ASSET_LENGTH, NAME_LENGTH, METADATA_LENGTH,
              PUBLIC_ADDRESS_SIZE] at *
            omega
          rw [readBytes, if_neg h4]
        · rw [readBytes, if_neg h3]
      · rw [readBytes, if_neg h2]
    · rw [readBytes, if_neg h1]
      simp only [bind, Except.bind]
  · intro a ha
    rw [Asset.read] at ha
    by_cases h1 : PUBLIC_ADDRESS_SIZE ≤ input.length
    · rw [readBytes, if_pos h1] at ha
      simp only [bind, Except.bind] at ha
      by_cases h2 : NAME_LENGTH ≤ (input.drop PUBLIC_ADDRESS_SIZE).length
      · rw [readBytes, if_pos h2] at ha
        simp only [bind, Except.bind] at ha
        by_cases h3 : METADATA_LENGTH ≤
            ((input.drop PUBLIC_ADDRESS_SIZE).drop NAME_LENGTH).length
        · rw [readBytes, if_pos h3] at ha
          simp only [bind, Except.bind] at ha
          by_cases h4 : 1 ≤
              (((input.drop PUBLIC_ADDRESS_SIZE).drop NAME_LENGTH).drop
                METADATA_LENGTH).length
          · rw [readBytes, if_pos h4] at ha
            simp only [bind, Except.bind] at ha
            obtain ⟨hv, haeq⟩ := (Asset.new_with_nonce_ok_iff P G H V _ _ _ _ a).mp ha
            subst haeq
            exact ⟨ha, rfl, hv⟩
          · rw [readBytes, if_neg h4] at ha
            simp only [bind, Except.bind] at ha
            cases ha
        · rw [readBytes, if_neg h3] at ha
          simp only [bind, Except.bind] at ha
          cases ha
      · rw [readBytes, if_neg h2] at ha
        simp only [bind, Except.bind] at ha
        cases ha
    · rw [readBytes, if_neg h1] at ha
      simp only [bind, Except.bind] at ha
      cases ha

set_option maxRecDepth 20000 in
/-- C6 witness: a truncated buffer is rejected with the short-read error,
and a parsed asset's identifier is re-validated. -/
theorem asset_read_short_or_validated_witness :
    Asset.read ([] : List Nat) [] hash0 vAll [1, 2, 3] = .error .IoError
    ∧ vAll (⟨List.replicate 32 0⟩ : AssetIdentifier).bytes = true :=
  ⟨(asset_read_short_or_validated [] [] hash0 vAll [1, 2, 3]).1 (by decide),
    ((asset_read_short_or_validated [] [] hash0 vAll
        (Asset.write ⟨nm1, md2, pa7, 3, ⟨List.replicate 32 0⟩⟩)).2
      ⟨nm1, md2, pa7, 3, ⟨List.replicate 32 0⟩⟩ rfl).2.2⟩

/-- C10: `new_with_nonce` (hence `Asset::read`) does not re-check the
non-empty-name rule — the all-zero name field (the encoding of the empty
name) is accepted whenever its digest validates, producing via `read` an
asset whose name `Asset::new` rejects with `InvalidData`. -/
theorem new_with_nonce_skips_name_check (o : PublicAddress) (m : List Nat)
    (k : Nat)
    (hv : V (H P (G ++ o.public_address ++ List.replicate NAME_LENGTH 0 ++ m ++ [k])) =
      true) :
    str_to_array "" NAME_LENGTH = List.replicate NAME_LENGTH 0
    ∧ (∃ a, Asset.new_with_nonce P G H V o (List.replicate NAME_LENGTH 0) m k = .ok a
        ∧ a.name = List.replicate NAME_LENGTH 0)
    ∧ (∀ meta, Asset.new P G H V o "" meta = .error .InvalidData)
    ∧ (o.bytes.length = PUBLIC_ADDRESS_SIZE → m.length = METADATA_LENGTH →
        ∃ a, Asset.read P G H V
            (o.bytes ++ (List.replicate NAME_LENGTH 0 ++ (m ++ [k]))) = .ok a
          ∧ a.name = List.replicate NAME_LENGTH 0) := by
  have hempty : (rustTrim "").isEmpty = true := by decide
  refine ⟨by decide, ?_, ?_, ?_⟩
  · rw [Asset.new_with_nonce_eq]
    simp only [Asset.hashInput]
    rw [if_pos hv]
    exact ⟨_, rfl, rfl⟩
  · intro meta
    simp [Asset.new, hempty]
  · intro ho hm
    rw [Asset.read_of_components P G H V o _ m k ho (by simp) hm,
      Asset.new_with_nonce_eq]
    simp only [Asset.hashInput]
    rw [if_pos hv]
    exact ⟨_, rfl, rfl⟩

/-- C10 witness: with a validator that accepts, the all-zero name is
accepted by `new_with_nonce` even though `Asset::new` rejects the empty
name. -/
theorem new_with_nonce_skips_name_check_witness :
    (∃ a, Asset.new_with_nonce [] [] hash0 vAll pa7
        (List.replicate NAME_LENGTH 0) md2 5 = .ok a
      ∧ a.name = List.replicate NAME_LENGTH 0)
    ∧ Asset.new [] [] hash0 vAll pa7 "" "m" = .error .InvalidData :=
  ⟨(new_with_nonce_skips_name_check [] [] hash0 vAll pa7 md2 5 (by decide)).2.1,
    (new_with_nonce_skips_name_check [] [] hash0 vAll pa7 md2 5 (by decide)).2.2.1 "m"⟩

end Theorems

end Ironfish
